import Mathlib

/-!
Shallow embedding of the ByersPlusPlus commandservice core (src/loader.rs).

The Rust module manages a `HashMap<String, Arc<CommandRegistrar>>` (the
GlobalTable) of dynamically loaded plugin libraries.  We embed:

* `HashMap<String, V>` as an association list with replace-on-insert
  semantics (`alookup` / `aerase` / `ainsert`); key order stands in for the
  unspecified HashMap iteration order.
* `Arc<T>` reference counts abstractly: functions that call
  `Arc::try_unwrap` receive the number of strong references held *outside*
  the structure being unwrapped as an explicit argument, and the count
  contributed by the structure itself is computed from the embedded state
  exactly as the Rust data holds it (the registrar field holds one
  `Arc<Library>`, and every `CommandProxy` table entry holds one more).
* a plugin implementation object (`Box<dyn Command>`) as a `Nat` identity;
  whether its `execute` succeeds is an oracle parameter `execOk`.
* the plugin's exported registration function pointer as the list of
  `register_command` invocations it performs.
* external effects (opening the native file, closing it, the gRPC identity
  lookup) as explicit result parameters.
-/

namespace CommandService

/-- Association-list lookup; the first binding of the key wins, matching
`HashMap::get` on a map whose keys are unique. -/
def alookup {α : Type} : List (String × α) → String → Option α
  | [], _ => none
  | (k, v) :: rest, key => if k = key then some v else alookup rest key

/-- Remove every binding of `key`, matching `HashMap::remove`. -/
def aerase {α : Type} : List (String × α) → String → List (String × α)
  | [], _ => []
  | (k, v) :: rest, key =>
    if k = key then aerase rest key else (k, v) :: aerase rest key

/-- Embeds `HashMap::insert`: the new binding replaces any existing binding of the
same key. -/
def ainsert {α : Type} (m : List (String × α)) (key : String) (v : α) :
    List (String × α) :=
  (key, v) :: aerase m key

/-- The keys of an association list are pairwise distinct; `HashMap` keeps
this invariant by construction. -/
def keysNodup {α : Type} (m : List (String × α)) : Prop :=
  (m.map Prod.fst).Nodup

instance {α : Type} (m : List (String × α)) : Decidable (keysNodup m) :=
  List.nodupDecidable _

/-- Rust `ProcessorError` from loader.rs, one constructor per `custom_error!`
variant, fields in declaration order. -/
inductive ProcessorError where
  | commandNotFound (command : String)
  | commandExecutionFailed (command library message : String)
  | loadError (library_name message : String)
  | libraryRustCVersionMismatch
      (library_name rustc_version actual_rustc_version : String)
  | libraryCoreVersionMismatch
      (library_name core_version actual_core_version : String)
deriving DecidableEq, Repr

/-- Rust `CommandProxy`: a plugin implementation (identified by a `Nat`), the
library it came from (`_lib: Arc<Library>` embedded as the library identity,
`_lib_name`), its alias list and the `is_alias` flag.  `Clone` on the Rust
struct preserves all of these and bumps the library's reference count. -/
structure CommandProxy where
  command : Nat
  lib : Nat
  lib_name : String
  aliases : List String
  is_alias : Bool
deriving DecidableEq, Repr

/-- Rust `CommandRegistrar`: the per-library Registry (command name to proxy),
the `Arc<Library>` it holds, and the library's file name. -/
structure CommandRegistrar where
  commands : List (String × CommandProxy)
  lib : Nat
  library_name : String
deriving DecidableEq, Repr

/-- Embeds `CommandRegistrar::new`. -/
def CommandRegistrar.new (lib : Nat) (library_name : String) :
    CommandRegistrar :=
  { commands := [], lib := lib, library_name := library_name }

/-- Embeds `CommandRegistrar::register_command`: build the canonical proxy
(`is_alias = false`, full alias list); insert one clone per alias with
`is_alias = true` and a cleared alias list; finally insert the canonical
proxy under `name`. -/
def register_command (r : CommandRegistrar) (name : String)
    (aliases : List String) (command : Nat) : CommandRegistrar :=
  let proxy : CommandProxy :=
    { command := command, lib := r.lib, lib_name := r.library_name,
      aliases := aliases, is_alias := false }
  let cmds := aliases.foldl
    (fun m a => ainsert m a { proxy with is_alias := true, aliases := [] })
    r.commands
  { r with commands := ainsert cmds name proxy }

/-- The GlobalTable: `HashMap<String, Arc<CommandRegistrar>>`. -/
abbrev GlobalTable : Type := List (String × CommandRegistrar)

/-- One `register_command` invocation performed by a plugin's registration
function. -/
structure RegisterCall where
  name : String
  aliases : List String
  command : Nat
deriving DecidableEq, Repr

/-- Rust `CommandDeclaration`: the fixed-name exported plugin descriptor.  The
registration function pointer is embedded as the list of
`register_command` calls it performs. -/
structure CommandDeclaration where
  rustc_version : String
  core_version : String
  register : List RegisterCall
deriving DecidableEq, Repr

/-- The step function folded over a plugin's registration calls in `load`:
one `register_command` invocation. -/
def regStep (r : CommandRegistrar) (rc : RegisterCall) : CommandRegistrar :=
  register_command r rc.name rc.aliases rc.command

/-- Result of `CommandProcessor::load`, with the resulting GlobalTable and
a flag recording whether the plugin's registration function was invoked. -/
structure LoadResult where
  table : GlobalTable
  res : Except ProcessorError Unit
  registerCalled : Bool

/-- Embeds `CommandProcessor::load`.  `hostRustc` / `hostCore` are the host's
build-time constants `bpp_command_api::RUSTC_VERSION` / `CORE_VERSION`;
`openErr` is the outcome of `Library::new` (the platform open); `libId`
identifies the freshly mapped library.  Checks run in source order: open
failure, rustc mismatch, core mismatch, then registration and insertion
keyed by file name. -/
def load (hostRustc hostCore : String) (table : GlobalTable)
    (file_name : String) (openErr : Option String)
    (decl : CommandDeclaration) (libId : Nat) : LoadResult :=
  match openErr with
  | some msg =>
    { table := table, res := .error (.loadError file_name msg),
      registerCalled := false }
  | none =>
    if decl.rustc_version ≠ hostRustc then
      { table := table,
        res := .error (.libraryRustCVersionMismatch file_name hostRustc
          decl.rustc_version),
        registerCalled := false }
    else if decl.core_version ≠ hostCore then
      { table := table,
        res := .error (.libraryCoreVersionMismatch file_name hostCore
          decl.core_version),
        registerCalled := false }
    else
      let registrar := decl.register.foldl regStep
        (CommandRegistrar.new libId file_name)
      { table := ainsert table file_name registrar, res := .ok (),
        registerCalled := true }

/-- The lookup inside `CommandProcessor::call`:
`lib.values().find_map(|lib| lib.commands.get(&message.command_name))`. -/
def findCommand : GlobalTable → String → Option CommandProxy
  | [], _ => none
  | e :: t, name =>
    match alookup e.2.commands name with
    | some c => some c
    | none => findCommand t name

/-- Rust `Message` (from bpp_command_api): the fields `call` and the ingestion
loop inspect. -/
structure Message where
  command_name : String
  message : String
  has_command_info : Bool
deriving DecidableEq, Repr

/-- Embeds `CommandProcessor::call`: look the command up across every registrar;
absent everywhere is `CommandNotFound`; otherwise `execute` the proxy
(success decided by the oracle `execOk`), reporting failures as
`CommandExecutionFailed { command, library, message }`.  The second
component lists the implementation objects that were executed. -/
def call (table : GlobalTable) (message : Message)
    (execOk : Nat → Message → Bool) :
    Except ProcessorError Unit × List Nat :=
  match findCommand table message.command_name with
  | none => (.error (.commandNotFound message.command_name), [])
  | some cmd =>
    if execOk cmd.command message then (.ok (), [cmd.command])
    else
      (.error (.commandExecutionFailed message.command_name cmd.lib_name
        message.message), [cmd.command])

/-- Which exit `CommandProcessor::unload` took; in Rust each is only a log
line, the function itself returns `()` on every path. -/
inductive UnloadOutcome where
  | libraryNotFound
  | registrarStillUsed
  | libraryStillUsed
  | closed (closeFailed : Bool)
deriving DecidableEq, Repr

/-- Embeds `CommandProcessor::unload`.  `extReg` is the number of
`Arc<CommandRegistrar>` clones held outside the GlobalTable, `extLib` the
number of `Arc<Library>` clones held outside the registrar and its own
command proxies; `closeOk` is the outcome of `Library::close`.

Source order: remove the registrar (warn and return when absent);
`Arc::try_unwrap` it, which succeeds exactly when no outside clone exists,
reinserting the same `Arc` under the same key on failure; drain the
commands into a local map; `Arc::try_unwrap` the library, whose strong
count is 1 (the registrar's own field) plus one per drained proxy plus
`extLib`, reinserting a rebuilt registrar on failure; close the library,
logging (only) when closing fails. -/
def unload (table : GlobalTable) (library_name : String)
    (extReg extLib : Nat) (closeOk : Bool) :
    GlobalTable × UnloadOutcome :=
  match alookup table library_name with
  | none => (table, .libraryNotFound)
  | some registrar =>
    let table1 := aerase table library_name
    if extReg ≠ 0 then
      (ainsert table1 library_name registrar, .registrarStillUsed)
    else
      let commands := registrar.commands
      if commands.length + extLib ≠ 0 then
        (ainsert table1 library_name
          { commands := commands, lib := registrar.lib,
            library_name := library_name },
         .libraryStillUsed)
      else
        (table1, .closed (¬ closeOk : Bool))

/-- A `tonic::Code` as the ingestion loop distinguishes it: `NotFound`
versus anything else. -/
inductive GrpcCode where
  | notFound
  | other (code : Nat)
deriving DecidableEq, Repr

/-- Outcome of one `user_service.get_user_by_id` attempt. -/
inductive UserLookup where
  | found (user : Nat)
  | failed (code : GrpcCode)
deriving DecidableEq, Repr

deriving instance DecidableEq for Except

/-- How one iteration of the `fetch_messages` loop body ends for one
inbound stream record. -/
inductive StepOutcome where
  | droppedNoUser
  | panicked
  | skippedNoCommandInfo
  | dispatched (result : Except ProcessorError Unit) (executed : List Nat)
deriving DecidableEq, Repr

/-- One loop-body iteration: how it ended, how many identity-lookup
attempts were made, and how many milliseconds were slept. -/
structure StepResult where
  outcome : StepOutcome
  lookupAttempts : Nat
  sleptMs : Nat
deriving DecidableEq, Repr

/-- The tail of the loop body after `user.unwrap()` succeeded: build the
`Message` (via the external `Message::new`, the oracle `mkMsg`), skip it
silently when `has_command_info` is false, otherwise dispatch through
`call` (`CommandNotFound` is demoted to a debug log, other errors logged
at error severity; the loop continues either way). -/
def handleUser (table : GlobalTable) (execOk : Nat → Message → Bool)
    (msg : Message) (attempts slept : Nat) : StepResult :=
  if msg.has_command_info = false then
    { outcome := .skippedNoCommandInfo, lookupAttempts := attempts,
      sleptMs := slept }
  else
    let r := call table msg execOk
    { outcome := .dispatched r.1 r.2, lookupAttempts := attempts,
      sleptMs := slept }

/-- One iteration of the `fetch_messages` loop body (loader.rs lines
178-217) for a single stream record.  `first` and `retry` are the results
of the at-most-two `get_user_by_id` calls.  Faithful to the source: only a
first failure whose code is `NotFound` enters the sleep-100ms-and-retry
branch (any retry failure drops the record); a first failure with any
other code falls through to `user.unwrap()` on an `Err`, which panics. -/
def processMessage (table : GlobalTable) (execOk : Nat → Message → Bool)
    (mkMsg : Nat → String → Message) (text : String)
    (first retry : UserLookup) : StepResult :=
  match first with
  | .found u => handleUser table execOk (mkMsg u text) 1 0
  | .failed code =>
    if code = .notFound then
      match retry with
      | .failed _ =>
        { outcome := .droppedNoUser, lookupAttempts := 2, sleptMs := 100 }
      | .found u => handleUser table execOk (mkMsg u text) 2 100
    else
      { outcome := .panicked, lookupAttempts := 1, sleptMs := 0 }

/-- The static description string used by the introspection service. -/
def DESCRIPTION : String := "A command for ByersPlusPlus"

/-- The `commandservice::Command` protobuf message returned by the
introspection endpoints. -/
structure CommandInfo where
  name : String
  aliases : List String
  description : String
  library : String
deriving DecidableEq, Repr

/-- The inner loop of `get_commands` for one library: one `CommandInfo`
per non-alias entry, `continue` on alias entries. -/
def libraryInfos (library : String) :
    List (String × CommandProxy) → List CommandInfo
  | [] => []
  | (n, c) :: rest =>
    if c.is_alias then libraryInfos library rest
    else
      { name := n, aliases := c.aliases, description := DESCRIPTION,
        library := library } :: libraryInfos library rest

/-- The outer loop of `get_commands` over every library. -/
def allInfos : GlobalTable → List CommandInfo
  | [] => []
  | e :: t => libraryInfos e.1 e.2.commands ++ allInfos t

/-- Embeds `CommandServiceServer::get_commands`: every non-alias entry of every
library, plus `lib.len()` as the count. -/
def get_commands (table : GlobalTable) : List CommandInfo × Int :=
  (allInfos table, Int.ofNat table.length)

/-- The inner loop of `get_command` for one library: skip alias entries,
`break` with the info on the first non-alias entry whose key matches. -/
def findInfo (library name : String) :
    List (String × CommandProxy) → Option CommandInfo
  | [] => none
  | (n, c) :: rest =>
    if c.is_alias then findInfo library name rest
    else if n = name then
      some { name := name, aliases := c.aliases,
             description := DESCRIPTION, library := library }
    else findInfo library name rest

/-- Embeds `CommandServiceServer::get_command`: first matching non-alias entry
across the libraries, `not_found` (here `none`) otherwise. -/
def get_command : GlobalTable → String → Option CommandInfo
  | [], _ => none
  | e :: t, name =>
    match findInfo e.1 name e.2.commands with
    | some i => some i
    | none => get_command t name

/-- All names one `register_command` call binds: the canonical name and
the aliases. -/
def RegisterCall.boundNames (rc : RegisterCall) : List String :=
  rc.name :: rc.aliases

/-- All names a registration sequence binds, in call order. -/
def declNames : List RegisterCall → List String
  | [] => []
  | rc :: rest => rc.boundNames ++ declNames rest

/-- How many entries of an introspection listing carry a given library
name and command name. -/
def countInfos : List CommandInfo → String → String → Nat
  | [], _, _ => 0
  | i :: rest, library, name =>
    (if i.library = library ∧ i.name = name then 1 else 0) +
      countInfos rest library name

/-! ### Concrete fixtures used by witnesses and counterexamples -/

/-- A one-command plugin descriptor. -/
def pingDecl : CommandDeclaration :=
  { rustc_version := "r1", core_version := "c1",
    register := [{ name := "ping", aliases := [], command := 7 }] }

/-- The canonical proxy `pingDecl` registers. -/
def pingProxy : CommandProxy :=
  { command := 7, lib := 0, lib_name := "plugin.so", aliases := [],
    is_alias := false }

/-- The Registry produced by loading `pingDecl` as `plugin.so`. -/
def pingRegistrar : CommandRegistrar :=
  { commands := [("ping", pingProxy)], lib := 0,
    library_name := "plugin.so" }

/-- The GlobalTable holding exactly the loaded `pingDecl`. -/
def pingTable : GlobalTable := [("plugin.so", pingRegistrar)]

/-- A canonical command with one alias, from a second library. -/
def greetProxy : CommandProxy :=
  { command := 3, lib := 1, lib_name := "greet.so", aliases := ["hi"],
    is_alias := false }

/-- The alias entry cloned from `greetProxy`. -/
def hiProxy : CommandProxy :=
  { command := 3, lib := 1, lib_name := "greet.so", aliases := [],
    is_alias := true }

/-- The Registry of `greet.so`: the alias entry and the canonical entry. -/
def greetRegistrar : CommandRegistrar :=
  { commands := [("hi", hiProxy), ("greet", greetProxy)], lib := 1,
    library_name := "greet.so" }

/-- A GlobalTable holding only `greet.so`. -/
def greetTable : GlobalTable := [("greet.so", greetRegistrar)]

/-- A well-versioned plugin descriptor registering `greet` with alias
`hi`. -/
def greetDecl : CommandDeclaration :=
  { rustc_version := "r1", core_version := "c1",
    register := [{ name := "greet", aliases := ["hi"], command := 3 }] }

/-! ### Lemmas about the association-list operations -/

theorem alookup_aerase {α : Type} (m : List (String × α)) (key k : String) :
    alookup (aerase m key) k = if key = k then none else alookup m k := by
  induction m with
  | nil => simp [aerase, alookup]
  | cons e rest ih =>
    obtain ⟨ek, ev⟩ := e
    by_cases h1 : ek = key
    · rw [show aerase ((ek, ev) :: rest) key = aerase rest key by
        simp [aerase, h1], ih]
      by_cases h2 : key = k
      · simp [h2]
      · have h3 : ¬ ek = k := fun h => h2 (h1.symm.trans h)
        simp [h2, alookup, h3]
    · rw [show aerase ((ek, ev) :: rest) key = (ek, ev) :: aerase rest key by
        simp [aerase, h1]]
      by_cases h2 : ek = k
      · have h3 : ¬ key = k := fun h => h1 (h2.trans h.symm)
        simp [alookup, h2, h3]
      · simp [alookup, h2, ih]

theorem alookup_ainsert {α : Type} (m : List (String × α)) (key k : String)
    (v : α) :
    alookup (ainsert m key v) k = if key = k then some v else alookup m k := by
  by_cases h : key = k <;> simp [ainsert, alookup, alookup_aerase, h]

theorem alookup_foldl_ainsert_const {α : Type} (as : List String)
    (m : List (String × α)) (v : α) (k : String) :
    alookup (as.foldl (fun m a => ainsert m a v) m) k =
      if k ∈ as then some v else alookup m k := by
  induction as generalizing m with
  | nil => simp
  | cons a rest ih =>
    simp only [List.foldl_cons, ih, alookup_ainsert, List.mem_cons]
    by_cases h1 : k ∈ rest
    · simp [h1]
    · by_cases h2 : a = k
      · simp [h1, h2]
      · have : ¬ k = a := fun h => h2 h.symm
        simp [h1, h2, this]

/-- The shape of the Registry after one `register_command` call: the
canonical name maps to the full proxy, each (other) alias to the cleared
alias clone, and every other key is untouched. -/
theorem register_command_alookup (r : CommandRegistrar) (n : String)
    (as : List String) (c : Nat) (k : String) :
    alookup (register_command r n as c).commands k =
      if k = n then
        some { command := c, lib := r.lib, lib_name := r.library_name,
               aliases := as, is_alias := false }
      else if k ∈ as then
        some { command := c, lib := r.lib, lib_name := r.library_name,
               aliases := [], is_alias := true }
      else alookup r.commands k := by
  simp only [register_command, alookup_ainsert, alookup_foldl_ainsert_const]
  by_cases h1 : n = k
  · simp [h1]
  · have : ¬ k = n := fun h => h1 h.symm
    simp [h1, this]

theorem register_command_lib (r : CommandRegistrar) (n : String)
    (as : List String) (c : Nat) :
    (register_command r n as c).lib = r.lib ∧
      (register_command r n as c).library_name = r.library_name := by
  simp [register_command]

theorem findCommand_eq_none_iff (table : GlobalTable) (name : String) :
    findCommand table name = none ↔
      ∀ e ∈ table, alookup e.2.commands name = none := by
  induction table with
  | nil => simp [findCommand]
  | cons e t ih =>
    simp only [findCommand, List.mem_cons]
    cases h : alookup e.2.commands name with
    | some c =>
      simp only [reduceCtorEq, false_iff]
      intro hall
      exact absurd (hall e (Or.inl rfl)) (by simp [h])
    | none =>
      rw [ih]
      constructor
      · intro hall e2 he2
        rcases he2 with he2 | he2
        · exact he2 ▸ h
        · exact hall e2 he2
      · intro hall e2 he2
        exact hall e2 (Or.inr he2)

theorem findCommand_cons_of_alookup (e : String × CommandRegistrar)
    (t : GlobalTable) (name : String) (c : CommandProxy)
    (h : alookup e.2.commands name = some c) :
    findCommand (e :: t) name = some c := by
  simp [findCommand, h]

theorem mem_of_alookup {α : Type} (m : List (String × α)) (k : String)
    (v : α) (h : alookup m k = some v) : (k, v) ∈ m := by
  induction m with
  | nil => simp [alookup] at h
  | cons e rest ih =>
    obtain ⟨ek, ev⟩ := e
    by_cases h1 : ek = k
    · simp only [alookup, if_pos h1] at h
      subst h1
      cases h
      exact List.mem_cons_self _ _
    · simp only [alookup, if_neg h1] at h
      exact List.mem_cons_of_mem _ (ih h)

theorem alookup_of_mem {α : Type} (m : List (String × α)) (k : String)
    (v : α) (hnd : keysNodup m) (h : (k, v) ∈ m) : alookup m k = some v := by
  induction m with
  | nil => simp at h
  | cons e rest ih =>
    obtain ⟨ek, ev⟩ := e
    rw [keysNodup, List.map_cons, List.nodup_cons] at hnd
    rcases List.mem_cons.mp h with h1 | h1
    · cases h1
      simp [alookup]
    · have hk : ¬ ek = k := by
        intro he
        subst he
        exact hnd.1 (List.mem_map.mpr ⟨(ek, v), h1, rfl⟩)
      simp only [alookup, if_neg hk]
      exact ih hnd.2 h1

theorem findCommand_isSome_iff (table : GlobalTable) (name : String) :
    (findCommand table name).isSome = true ↔
      ∃ e ∈ table, ∃ c, alookup e.2.commands name = some c := by
  induction table with
  | nil => simp [findCommand]
  | cons e t ih =>
    simp only [findCommand, List.mem_cons]
    cases h : alookup e.2.commands name with
    | some c =>
      simp only [Option.isSome_some, true_iff]
      exact ⟨e, Or.inl rfl, c, h⟩
    | none =>
      rw [ih]
      constructor
      · rintro ⟨e2, he2, c2, hc2⟩
        exact ⟨e2, Or.inr he2, c2, hc2⟩
      · rintro ⟨e2, he2 | he2, c2, hc2⟩
        · rw [he2, h] at hc2
          cases hc2
        · exact ⟨e2, he2, c2, hc2⟩

theorem foldl_regStep_lib (cs : List RegisterCall) (r : CommandRegistrar) :
    (cs.foldl regStep r).lib = r.lib ∧
      (cs.foldl regStep r).library_name = r.library_name := by
  induction cs generalizing r with
  | nil => exact ⟨rfl, rfl⟩
  | cons rc rest ih =>
    rw [List.foldl_cons]
    rcases ih (regStep r rc) with ⟨h1, h2⟩
    rcases register_command_lib r rc.name rc.aliases rc.command with
      ⟨h3, h4⟩
    exact ⟨h1.trans h3, h2.trans h4⟩

theorem foldl_regStep_untouched (cs : List RegisterCall)
    (r : CommandRegistrar) (k : String) (hk : k ∉ declNames cs) :
    alookup (cs.foldl regStep r).commands k = alookup r.commands k := by
  induction cs generalizing r with
  | nil => rfl
  | cons rc rest ih =>
    rw [show declNames (rc :: rest) = rc.boundNames ++ declNames rest from
      rfl, List.mem_append] at hk
    push_neg at hk
    have hkn : ¬ k = rc.name := fun h => hk.1 (h ▸ List.mem_cons_self _ _)
    have hka : k ∉ rc.aliases := fun h =>
      hk.1 (List.mem_cons_of_mem _ h)
    rw [List.foldl_cons, ih _ hk.2, regStep, register_command_alookup,
      if_neg hkn, if_neg hka]

theorem foldl_regStep_binds (cs : List RegisterCall)
    (r : CommandRegistrar) (rc : RegisterCall)
    (hnd : (declNames cs).Nodup) (hmem : rc ∈ cs) :
    alookup (cs.foldl regStep r).commands rc.name =
      some { command := rc.command, lib := r.lib,
             lib_name := r.library_name, aliases := rc.aliases,
             is_alias := false } ∧
    ∀ a ∈ rc.aliases,
      alookup (cs.foldl regStep r).commands a =
        some { command := rc.command, lib := r.lib,
               lib_name := r.library_name, aliases := [],
               is_alias := true } := by
  induction cs generalizing r with
  | nil => simp at hmem
  | cons rc0 rest ih =>
    rw [show declNames (rc0 :: rest) = rc0.boundNames ++ declNames rest
      from rfl, List.nodup_append] at hnd
    obtain ⟨hnd1, hnd2, hdisj⟩ := hnd
    rcases List.mem_cons.mp hmem with heq | hmem'
    · subst heq
      have hname : rc.name ∉ declNames rest :=
        fun h => hdisj (List.mem_cons_self _ _) h
      have hnotal : rc.name ∉ rc.aliases := by
        rw [RegisterCall.boundNames, List.nodup_cons] at hnd1
        exact hnd1.1
      constructor
      · rw [List.foldl_cons, foldl_regStep_untouched rest _ rc.name hname,
          regStep, register_command_alookup, if_pos rfl]
      · intro a ha
        have hano : a ∉ declNames rest :=
          fun h => hdisj (List.mem_cons_of_mem _ ha) h
        have hane : ¬ a = rc.name := fun h => hnotal (h ▸ ha)
        rw [List.foldl_cons, foldl_regStep_untouched rest _ a hano,
          regStep, register_command_alookup, if_neg hane, if_pos ha]
    · have ihres := ih (regStep r rc0) hnd2 hmem'
      rcases register_command_lib r rc0.name rc0.aliases rc0.command with
        ⟨h3, h4⟩
      rw [List.foldl_cons]
      rw [show (regStep r rc0).lib = r.lib from h3,
        show (regStep r rc0).library_name = r.library_name from h4] at ihres
      exact ihres

theorem countInfos_append (l1 l2 : List CommandInfo) (L n : String) :
    countInfos (l1 ++ l2) L n = countInfos l1 L n + countInfos l2 L n := by
  induction l1 with
  | nil => simp [countInfos]
  | cons i rest ih =>
    simp only [List.cons_append, List.append_eq, countInfos, ih,
      Nat.add_assoc]

theorem countInfos_libraryInfos_of_no_key (L2 L n : String)
    (cmds : List (String × CommandProxy))
    (h : ∀ k ∈ cmds.map Prod.fst, k ≠ n) :
    countInfos (libraryInfos L2 cmds) L n = 0 := by
  induction cmds with
  | nil => rfl
  | cons e rest ih =>
    obtain ⟨k, c⟩ := e
    have hk : k ≠ n := h k (by simp)
    have hrest : ∀ k2 ∈ rest.map Prod.fst, k2 ≠ n := fun k2 hm =>
      h k2 (by simp [hm])
    cases hal : c.is_alias with
    | true => simp [libraryInfos, hal, ih hrest]
    | false => simp [libraryInfos, hal, countInfos, hk, ih hrest]

theorem countInfos_libraryInfos_of_ne (L2 L n : String)
    (cmds : List (String × CommandProxy)) (h : L2 ≠ L) :
    countInfos (libraryInfos L2 cmds) L n = 0 := by
  induction cmds with
  | nil => rfl
  | cons e rest ih =>
    obtain ⟨k, c⟩ := e
    cases hal : c.is_alias with
    | true => simp [libraryInfos, hal, ih]
    | false => simp [libraryInfos, hal, countInfos, h, ih]

theorem countInfos_libraryInfos (L n : String)
    (cmds : List (String × CommandProxy)) (hnd : keysNodup cmds) :
    countInfos (libraryInfos L cmds) L n =
      (match alookup cmds n with
       | some c => if c.is_alias then 0 else 1
       | none => 0) := by
  induction cmds with
  | nil => rfl
  | cons e rest ih =>
    obtain ⟨k, c⟩ := e
    rw [keysNodup, List.map_cons, List.nodup_cons] at hnd
    have hnk : ∀ k2 ∈ rest.map Prod.fst, k2 ≠ k := fun k2 hm he =>
      hnd.1 (he ▸ hm)
    cases hal : c.is_alias with
    | true =>
      by_cases hk : k = n
      · subst hk
        simp only [libraryInfos, hal, if_true, alookup, if_pos rfl, hal]
        exact countInfos_libraryInfos_of_no_key L L k rest hnk
      · simp only [libraryInfos, hal, if_true, alookup, if_neg hk]
        exact ih hnd.2
    | false =>
      by_cases hk : k = n
      · subst hk
        rw [show libraryInfos L ((k, c) :: rest) =
          { name := k, aliases := c.aliases, description := DESCRIPTION,
            library := L } :: libraryInfos L rest by
          simp [libraryInfos, hal]]
        simp only [countInfos]
        rw [countInfos_libraryInfos_of_no_key L L k rest hnk]
        simp [alookup, hal]
      · rw [show libraryInfos L ((k, c) :: rest) =
          { name := k, aliases := c.aliases, description := DESCRIPTION,
            library := L } :: libraryInfos L rest by
          simp [libraryInfos, hal]]
        simp only [countInfos]
        rw [ih hnd.2]
        simp [alookup, hk]

theorem countInfos_allInfos_of_no_key (table : GlobalTable)
    (L n : String) (h : L ∉ table.map Prod.fst) :
    countInfos (allInfos table) L n = 0 := by
  induction table with
  | nil => rfl
  | cons e t ih =>
    rw [List.map_cons] at h
    have h1 : e.1 ≠ L := fun he => h (he ▸ List.mem_cons_self _ _)
    have h2 : L ∉ t.map Prod.fst := fun hm =>
      h (List.mem_cons_of_mem _ hm)
    rw [show allInfos (e :: t) =
      libraryInfos e.1 e.2.commands ++ allInfos t from rfl,
      countInfos_append, countInfos_libraryInfos_of_ne e.1 L n _ h1, ih h2]

theorem countInfos_allInfos (table : GlobalTable) (L n : String)
    (hkeys : keysNodup table)
    (hregs : ∀ e ∈ table, keysNodup e.2.commands) :
    countInfos (allInfos table) L n =
      (match alookup table L with
       | none => 0
       | some reg =>
         match alookup reg.commands n with
         | some c => if c.is_alias then 0 else 1
         | none => 0) := by
  induction table with
  | nil => rfl
  | cons e t ih =>
    obtain ⟨k, reg⟩ := e
    rw [keysNodup, List.map_cons, List.nodup_cons] at hkeys
    rw [show allInfos ((k, reg) :: t) =
      libraryInfos k reg.commands ++ allInfos t from rfl, countInfos_append]
    by_cases hk : k = L
    · subst hk
      rw [countInfos_libraryInfos k n reg.commands
          (hregs (k, reg) (List.mem_cons_self _ _)),
        countInfos_allInfos_of_no_key t k n hkeys.1]
      simp [alookup]
    · rw [countInfos_libraryInfos_of_ne k L n _ hk,
        ih hkeys.2 (fun e2 he2 => hregs e2 (List.mem_cons_of_mem _ he2))]
      simp only [alookup, if_neg hk, Nat.zero_add]

theorem mem_libraryInfos (L : String)
    (cmds : List (String × CommandProxy)) (info : CommandInfo)
    (h : info ∈ libraryInfos L cmds) :
    info.library = L ∧ info.description = DESCRIPTION ∧
      ∃ c, (info.name, c) ∈ cmds ∧ c.is_alias = false ∧
        c.aliases = info.aliases := by
  induction cmds with
  | nil => simp [libraryInfos] at h
  | cons e rest ih =>
    obtain ⟨k, c⟩ := e
    cases hal : c.is_alias with
    | true =>
      rw [show libraryInfos L ((k, c) :: rest) =
        libraryInfos L rest by simp [libraryInfos, hal]] at h
      rcases ih h with ⟨h1, h2, c2, h3, h4, h5⟩
      exact ⟨h1, h2, c2, List.mem_cons_of_mem _ h3, h4, h5⟩
    | false =>
      rw [show libraryInfos L ((k, c) :: rest) =
        { name := k, aliases := c.aliases, description := DESCRIPTION,
          library := L } :: libraryInfos L rest by
        simp [libraryInfos, hal]] at h
      rcases List.mem_cons.mp h with h1 | h1
      · subst h1
        exact ⟨rfl, rfl, c, List.mem_cons_self _ _, hal, rfl⟩
      · rcases ih h1 with ⟨h2, h3, c2, h4, h5, h6⟩
        exact ⟨h2, h3, c2, List.mem_cons_of_mem _ h4, h5, h6⟩

theorem mem_allInfos (table : GlobalTable) (info : CommandInfo)
    (h : info ∈ allInfos table) :
    ∃ e ∈ table, info ∈ libraryInfos e.1 e.2.commands := by
  induction table with
  | nil => simp [allInfos] at h
  | cons e t ih =>
    rw [show allInfos (e :: t) =
      libraryInfos e.1 e.2.commands ++ allInfos t from rfl,
      List.mem_append] at h
    rcases h with h | h
    · exact ⟨e, List.mem_cons_self _ _, h⟩
    · rcases ih h with ⟨e2, he2, hin⟩
      exact ⟨e2, List.mem_cons_of_mem _ he2, hin⟩

theorem findInfo_isSome_iff (L name : String)
    (cmds : List (String × CommandProxy)) :
    (findInfo L name cmds).isSome = true ↔
      ∃ c, (name, c) ∈ cmds ∧ c.is_alias = false := by
  induction cmds with
  | nil => simp [findInfo]
  | cons e rest ih =>
    obtain ⟨k, c⟩ := e
    cases hal : c.is_alias with
    | true =>
      rw [show findInfo L name ((k, c) :: rest) =
        findInfo L name rest by simp [findInfo, hal], ih]
      constructor
      · rintro ⟨c2, h1, h2⟩
        exact ⟨c2, List.mem_cons_of_mem _ h1, h2⟩
      · rintro ⟨c2, h1, h2⟩
        rcases List.mem_cons.mp h1 with h3 | h3
        · rw [Prod.mk.injEq] at h3
          rw [h3.2] at h2
          rw [hal] at h2
          cases h2
        · exact ⟨c2, h3, h2⟩
    | false =>
      by_cases hk : k = name
      · subst hk
        rw [show findInfo L k ((k, c) :: rest) =
          some { name := k, aliases := c.aliases,
                 description := DESCRIPTION, library := L } by
          simp [findInfo, hal]]
        simp only [Option.isSome_some, true_iff]
        exact ⟨c, List.mem_cons_self _ _, hal⟩
      · rw [show findInfo L name ((k, c) :: rest) =
          findInfo L name rest by simp [findInfo, hal, hk], ih]
        constructor
        · rintro ⟨c2, h1, h2⟩
          exact ⟨c2, List.mem_cons_of_mem _ h1, h2⟩
        · rintro ⟨c2, h1, h2⟩
          rcases List.mem_cons.mp h1 with h3 | h3
          · rw [Prod.mk.injEq] at h3
            exact absurd h3.1.symm hk
          · exact ⟨c2, h3, h2⟩

theorem get_command_isSome_iff (table : GlobalTable) (name : String) :
    (get_command table name).isSome = true ↔
      ∃ e ∈ table, ∃ c, (name, c) ∈ e.2.commands ∧
        c.is_alias = false := by
  induction table with
  | nil => simp [get_command]
  | cons e t ih =>
    simp only [get_command]
    cases hfi : findInfo e.1 name e.2.commands with
    | some i =>
      simp only [Option.isSome_some, true_iff]
      have : (findInfo e.1 name e.2.commands).isSome = true := by
        rw [hfi]; rfl
      rcases (findInfo_isSome_iff e.1 name e.2.commands).mp this with
        ⟨c, h1, h2⟩
      exact ⟨e, List.mem_cons_self _ _, c, h1, h2⟩
    | none =>
      rw [ih]
      constructor
      · rintro ⟨e2, he2, c2, h1, h2⟩
        exact ⟨e2, List.mem_cons_of_mem _ he2, c2, h1, h2⟩
      · rintro ⟨e2, he2, c2, h1, h2⟩
        rcases List.mem_cons.mp he2 with h3 | h3
        · subst h3
          have : (findInfo e2.1 name e2.2.commands).isSome = true :=
            (findInfo_isSome_iff e2.1 name e2.2.commands).mpr ⟨c2, h1, h2⟩
          rw [hfi] at this
          cases this
        · exact ⟨e2, h3, c2, h1, h2⟩

/-! ### Claim theorems -/

/-- C6: a record whose identity lookup fails with the not-found
classification on the initial attempt and again on the retry made after
the 100 ms sleep is dropped: the loop body ends with `droppedNoUser`
(a `continue`), having made exactly two lookup attempts and slept 100 ms,
and no command is dispatched or executed for it (the outcome is not
`dispatched`). -/
theorem fetch_not_found_twice_drops (table : GlobalTable)
    (execOk : Nat → Message → Bool) (mkMsg : Nat → String → Message)
    (text : String) :
    processMessage table execOk mkMsg text (.failed .notFound)
        (.failed .notFound) =
      { outcome := .droppedNoUser, lookupAttempts := 2, sleptMs := 100 } :=
  rfl

/-- C4, counterexample: on a first identity-lookup failure whose
classification is `other 13` (not not-found), the loop body does not wait,
does not retry, and panics on `user.unwrap()` — contradicting the claim
that such a failure is handled like not-found (100 ms wait, one retry,
drop on retry failure, never a panic). -/
theorem fetch_other_error_counterexample :
    processMessage ([] : GlobalTable) (fun _ _ => true)
        (fun _ t => { command_name := "", message := t,
                      has_command_info := false }) "hello"
        (.failed (.other 13)) (.failed (.other 13)) =
      { outcome := .panicked, lookupAttempts := 1, sleptMs := 0 } ∧
    ({ outcome := .panicked, lookupAttempts := 1, sleptMs := 0 } :
        StepResult) ≠
      { outcome := .droppedNoUser, lookupAttempts := 2, sleptMs := 100 } := by
  exact ⟨rfl, by decide⟩

/-- C4, amended: a first-attempt identity-lookup failure with any
classification other than not-found is not retried at all — the loop body
performs no 100 ms wait and only one lookup attempt, and it panics
(`user.unwrap()` on an `Err`) instead of dropping the message; only a
not-found first classification triggers the single retry. -/
theorem fetch_other_error_panics (table : GlobalTable)
    (execOk : Nat → Message → Bool) (mkMsg : Nat → String → Message)
    (text : String) (code : Nat) (retry : UserLookup) :
    processMessage table execOk mkMsg text (.failed (.other code)) retry =
      { outcome := .panicked, lookupAttempts := 1, sleptMs := 0 } := by
  simp [processMessage]

/-- C5: when the command name of a message is bound in no Registry of the
GlobalTable, `call` returns `CommandNotFound` naming that command and
executes no plugin implementation (the executed list is empty); `call`
only reads the table, so the GlobalTable is unchanged. -/
theorem call_unregistered_not_found (table : GlobalTable) (msg : Message)
    (execOk : Nat → Message → Bool)
    (habs : ∀ e ∈ table, alookup e.2.commands msg.command_name = none) :
    call table msg execOk =
      (.error (.commandNotFound msg.command_name), []) := by
  have h : findCommand table msg.command_name = none :=
    (findCommand_eq_none_iff table msg.command_name).mpr habs
  simp [call, h]

/-- C5 witness: a concrete table binding only `ping`, called with `bar`. -/
theorem call_unregistered_not_found_witness :
    call pingTable
        { command_name := "bar", message := "!bar",
          has_command_info := true } (fun _ _ => true) =
      (.error (.commandNotFound "bar"), []) :=
  call_unregistered_not_found pingTable
    { command_name := "bar", message := "!bar", has_command_info := true }
    (fun _ _ => true) (by decide)

/-- C1: when the descriptor's rustc version or core version differs from
the host's build-time constant, `load` returns the corresponding
classified mismatch error naming the library file and both the expected
(host) and actual (plugin) version strings, the registration function is
never called, and the GlobalTable is untouched, so no command of the
plugin becomes reachable through `call`'s lookup. -/
theorem load_version_mismatch (hostRustc hostCore : String)
    (table : GlobalTable) (file_name : String) (decl : CommandDeclaration)
    (libId : Nat)
    (hmis : decl.rustc_version ≠ hostRustc ∨ decl.core_version ≠ hostCore) :
    (load hostRustc hostCore table file_name none decl libId).table =
        table ∧
    (load hostRustc hostCore table file_name none decl libId).registerCalled
        = false ∧
    (load hostRustc hostCore table file_name none decl libId).res =
      (if decl.rustc_version ≠ hostRustc then
        .error (.libraryRustCVersionMismatch file_name hostRustc
          decl.rustc_version)
      else
        .error (.libraryCoreVersionMismatch file_name hostCore
          decl.core_version)) ∧
    (∀ n, findCommand
        (load hostRustc hostCore table file_name none decl libId).table n =
      findCommand table n) := by
  by_cases h1 : decl.rustc_version = hostRustc
  · have h2 : decl.core_version ≠ hostCore := by
      rcases hmis with h | h
      · exact absurd h1 h
      · exact h
    simp [load, h1, h2]
  · simp [load, h1]

/-- C1 witness: a plugin built by a different rustc. -/
theorem load_version_mismatch_witness :
    (load "r1" "c1" ([] : GlobalTable) "plugin.so" none
        { rustc_version := "r2", core_version := "c1", register := [] }
        0).table = ([] : GlobalTable) ∧
    (load "r1" "c1" ([] : GlobalTable) "plugin.so" none
        { rustc_version := "r2", core_version := "c1", register := [] }
        0).registerCalled = false ∧
    (load "r1" "c1" ([] : GlobalTable) "plugin.so" none
        { rustc_version := "r2", core_version := "c1", register := [] }
        0).res =
      (if ("r2" : String) ≠ "r1" then
        .error (.libraryRustCVersionMismatch "plugin.so" "r1" "r2")
      else
        .error (.libraryCoreVersionMismatch "plugin.so" "c1" "c1")) ∧
    (∀ n, findCommand
        (load "r1" "c1" ([] : GlobalTable) "plugin.so" none
          { rustc_version := "r2", core_version := "c1", register := [] }
          0).table n =
      findCommand ([] : GlobalTable) n) :=
  load_version_mismatch "r1" "c1" ([] : GlobalTable) "plugin.so"
    { rustc_version := "r2", core_version := "c1", register := [] } 0
    (Or.inl (by decide))

/-- C2: the code contradicts the claim.  Loading a matching one-command
plugin produces `pingTable`; with no reference to the registrar or the
library held anywhere outside the GlobalTable (both external counts are
zero), `unload` still fails to take exclusive ownership of the
`LoadedLibrary` — the command proxies drained into `unload`'s own local
map each hold an `Arc<Library>` clone, so the strong count is 2, not 1 —
and it reinserts the registry: the outcome is `libraryStillUsed`, the
table is unchanged, the native mapping is never closed, and `ping` is
still reachable through `call`'s lookup. -/
theorem unload_nonempty_library_not_closed :
    (load "r1" "c1" ([] : GlobalTable) "plugin.so" none pingDecl 0).table =
      pingTable ∧
    unload pingTable "plugin.so" 0 0 true =
      (pingTable, .libraryStillUsed) ∧
    findCommand (unload pingTable "plugin.so" 0 0 true).1 "ping" =
      some pingProxy := by
  refine ⟨rfl, rfl, rfl⟩

/-- C7: when the library is present but `Arc::try_unwrap` on its Registry
fails (some clone of the registrar `Arc` is held outside the table, i.e.
`extReg ≠ 0`), `unload` aborts on the `registrarStillUsed` path and
reinserts the very same Registry under the same key: the table is
pointwise unchanged as a mapping (shown here at an arbitrary key `k`),
and any command bound in that Registry is still found by `call`'s lookup
with the same proxy.  In Rust the function returns `()` on every path, so
the caller sees nothing; the outcome component of the embedding only
records which log line was emitted. -/
theorem unload_registrar_busy_reinserts (table : GlobalTable)
    (name : String) (registrar : CommandRegistrar) (extReg extLib : Nat)
    (closeOk : Bool) (k kc : String) (c : CommandProxy)
    (hfound : alookup table name = some registrar) (hbusy : extReg ≠ 0)
    (hcmd : alookup registrar.commands kc = some c) :
    (unload table name extReg extLib closeOk).2 = .registrarStillUsed ∧
    alookup (unload table name extReg extLib closeOk).1 name =
      some registrar ∧
    alookup (unload table name extReg extLib closeOk).1 k =
      alookup table k ∧
    findCommand (unload table name extReg extLib closeOk).1 kc = some c := by
  have hu : unload table name extReg extLib closeOk =
      (ainsert (aerase table name) name registrar, .registrarStillUsed) := by
    simp [unload, hfound, hbusy]
  refine ⟨by rw [hu], ?_, ?_, ?_⟩
  · rw [hu]
    simp [alookup_ainsert]
  · rw [hu]
    rw [alookup_ainsert, alookup_aerase]
    by_cases h : name = k
    · subst h
      simp [hfound]
    · simp [h]
  · rw [hu]
    exact findCommand_cons_of_alookup _ _ _ _ hcmd

/-- C7 witness: `pingTable` with one registrar clone held elsewhere. -/
theorem unload_registrar_busy_reinserts_witness :
    (unload pingTable "plugin.so" 1 0 true).2 = .registrarStillUsed ∧
    alookup (unload pingTable "plugin.so" 1 0 true).1 "plugin.so" =
      some pingRegistrar ∧
    alookup (unload pingTable "plugin.so" 1 0 true).1 "plugin.so" =
      alookup pingTable "plugin.so" ∧
    findCommand (unload pingTable "plugin.so" 1 0 true).1 "ping" =
      some pingProxy :=
  unload_registrar_busy_reinserts pingTable "plugin.so" pingRegistrar 1 0
    true "plugin.so" "ping" pingProxy (by decide) (by decide) (by decide)

/-- C8, counterexample: when the canonical name itself appears in the
alias list, the alias is not kept as its own `is_alias = true` entry — the
canonical insertion happens last and overwrites it, so the single entry
stored under that name has `is_alias = false` and the full alias list,
contradicting the claim for that alias. -/
theorem register_command_alias_shadowed :
    alookup (register_command (CommandRegistrar.new 0 "lib.so") "x" ["x"]
        5).commands "x" =
      some { command := 5, lib := 0, lib_name := "lib.so",
             aliases := ["x"], is_alias := false } ∧
    some ({ command := 5, lib := 0, lib_name := "lib.so",
            aliases := ["x"], is_alias := false } : CommandProxy) ≠
      some { command := 5, lib := 0, lib_name := "lib.so", aliases := [],
             is_alias := true } := by
  exact ⟨rfl, by decide⟩

/-- C8, amended: for every `register_command(name, aliases, impl)` call,
each alias distinct from the canonical name is stored as its own table
entry that is a clone of the canonical entry with `is_alias = true` and an
empty alias list, carrying the same implementation object and the same
library reference; the canonical entry is stored under `name` with
`is_alias = false` and the full alias list.  (An alias equal to the
canonical name is overwritten by the canonical entry, which is inserted
last.) -/
theorem register_command_alias_entries (r : CommandRegistrar)
    (name : String) (aliases : List String) (command : Nat) (a : String)
    (ha : a ∈ aliases) (hne : a ≠ name) :
    alookup (register_command r name aliases command).commands a =
      some { command := command, lib := r.lib, lib_name := r.library_name,
             aliases := [], is_alias := true } ∧
    alookup (register_command r name aliases command).commands name =
      some { command := command, lib := r.lib, lib_name := r.library_name,
             aliases := aliases, is_alias := false } := by
  constructor
  · rw [register_command_alookup, if_neg hne, if_pos ha]
  · rw [register_command_alookup, if_pos rfl]

/-- C8 witness: a fresh registrar, canonical `greet` with alias `hi`. -/
theorem register_command_alias_entries_witness :
    alookup (register_command (CommandRegistrar.new 1 "greet.so") "greet"
        ["hi"] 3).commands "hi" =
      some { command := 3, lib := 1, lib_name := "greet.so",
             aliases := [], is_alias := true } ∧
    alookup (register_command (CommandRegistrar.new 1 "greet.so") "greet"
        ["hi"] 3).commands "greet" =
      some { command := 3, lib := 1, lib_name := "greet.so",
             aliases := ["hi"], is_alias := false } :=
  register_command_alias_entries (CommandRegistrar.new 1 "greet.so")
    "greet" ["hi"] 3 "hi" (by decide) (by decide)

/-- C3: when the descriptor's rustc and core versions both equal the
host's constants, `load` returns `Ok`, the registration function is
invoked, and the populated Registry is inserted into the GlobalTable
keyed by the file name, overwriting any prior entry under that key
(`alookup` at `file_name` yields exactly the new Registry, for an
arbitrary prior `table`).  For every `register_command` call `rc` the
plugin performed (with the names it binds pairwise distinct, which is
the spec's per-Registry uniqueness invariant), the new Registry binds
`rc.name` to the canonical proxy and each alias `a` to the alias clone,
and both names are found by `call`'s lookup over the resulting table, so
they are reachable via `call` (which dispatches whatever `findCommand`
returns; with duplicate names across libraries the winning registry is
unspecified, matching HashMap iteration order). -/
theorem load_matching_versions (hostRustc hostCore : String)
    (table : GlobalTable) (file_name : String) (decl : CommandDeclaration)
    (libId : Nat) (rc : RegisterCall) (a : String)
    (hr : decl.rustc_version = hostRustc)
    (hc : decl.core_version = hostCore)
    (hnd : (declNames decl.register).Nodup)
    (hmem : rc ∈ decl.register) (ha : a ∈ rc.aliases) :
    (load hostRustc hostCore table file_name none decl libId).res =
      .ok () ∧
    (load hostRustc hostCore table file_name none decl libId).registerCalled
      = true ∧
    (∃ reg,
      alookup (load hostRustc hostCore table file_name none decl
        libId).table file_name = some reg ∧
      alookup reg.commands rc.name =
        some { command := rc.command, lib := libId, lib_name := file_name,
               aliases := rc.aliases, is_alias := false } ∧
      alookup reg.commands a =
        some { command := rc.command, lib := libId, lib_name := file_name,
               aliases := [], is_alias := true }) ∧
    (findCommand (load hostRustc hostCore table file_name none decl
        libId).table rc.name).isSome = true ∧
    (findCommand (load hostRustc hostCore table file_name none decl
        libId).table a).isSome = true := by
  have hload : load hostRustc hostCore table file_name none decl libId =
      { table := ainsert table file_name
          (decl.register.foldl regStep
            (CommandRegistrar.new libId file_name)),
        res := .ok (), registerCalled := true } := by
    simp [load, hr, hc]
  rcases foldl_regStep_binds decl.register
      (CommandRegistrar.new libId file_name) rc hnd hmem with ⟨hb1, hb2⟩
  rw [show (CommandRegistrar.new libId file_name).lib = libId from rfl,
    show (CommandRegistrar.new libId file_name).library_name = file_name
      from rfl] at hb1 hb2
  have hba := hb2 a ha
  refine ⟨by rw [hload], by rw [hload], ?_, ?_, ?_⟩
  · refine ⟨decl.register.foldl regStep
      (CommandRegistrar.new libId file_name), ?_, hb1, hba⟩
    rw [hload]
    simp [alookup_ainsert]
  · rw [hload]
    rw [show ainsert table file_name
        (decl.register.foldl regStep (CommandRegistrar.new libId
          file_name)) =
      (file_name, decl.register.foldl regStep
        (CommandRegistrar.new libId file_name)) ::
        aerase table file_name from rfl,
      findCommand_cons_of_alookup _ _ _ _ hb1]
    rfl
  · rw [hload]
    rw [show ainsert table file_name
        (decl.register.foldl regStep (CommandRegistrar.new libId
          file_name)) =
      (file_name, decl.register.foldl regStep
        (CommandRegistrar.new libId file_name)) ::
        aerase table file_name from rfl,
      findCommand_cons_of_alookup _ _ _ _ hba]
    rfl

/-- C3 witness: loading `greetDecl` as `plugin.so` over a table that
already holds a `plugin.so` entry. -/
theorem load_matching_versions_witness :
    (load "r1" "c1" pingTable "plugin.so" none greetDecl 1).res =
      .ok () ∧
    (load "r1" "c1" pingTable "plugin.so" none greetDecl 1).registerCalled
      = true ∧
    (∃ reg,
      alookup (load "r1" "c1" pingTable "plugin.so" none greetDecl
        1).table "plugin.so" = some reg ∧
      alookup reg.commands "greet" =
        some { command := 3, lib := 1, lib_name := "plugin.so",
               aliases := ["hi"], is_alias := false } ∧
      alookup reg.commands "hi" =
        some { command := 3, lib := 1, lib_name := "plugin.so",
               aliases := [], is_alias := true }) ∧
    (findCommand (load "r1" "c1" pingTable "plugin.so" none greetDecl
        1).table "greet").isSome = true ∧
    (findCommand (load "r1" "c1" pingTable "plugin.so" none greetDecl
        1).table "hi").isSome = true :=
  load_matching_versions "r1" "c1" pingTable "plugin.so" greetDecl 1
    { name := "greet", aliases := ["hi"], command := 3 } "hi" rfl rfl
    (by decide) (by decide) (by decide)

/-- C9: for a well-formed GlobalTable (unique library keys, unique command
keys per Registry, which `HashMap` guarantees), the listing returned by
`get_commands` contains, per library `L` and name `n`, exactly one entry
when `L`'s Registry binds `n` to a non-alias proxy and none when the
binding is an alias entry or absent; every returned entry carries the
static description and corresponds to a non-alias Registry binding of its
canonical name in its owning library, with that binding's alias list; and
the returned count is the number of loaded libraries, not of commands. -/
theorem get_commands_spec (table : GlobalTable) (L n : String)
    (info : CommandInfo)
    (hkeys : keysNodup table)
    (hregs : ∀ e ∈ table, keysNodup e.2.commands)
    (hinfo : info ∈ (get_commands table).1) :
    countInfos (get_commands table).1 L n =
      (match alookup table L with
       | none => 0
       | some reg =>
         match alookup reg.commands n with
         | some c => if c.is_alias then 0 else 1
         | none => 0) ∧
    (get_commands table).2 = Int.ofNat table.length ∧
    info.description = DESCRIPTION ∧
    (∃ reg c, alookup table info.library = some reg ∧
      alookup reg.commands info.name = some c ∧ c.is_alias = false ∧
      c.aliases = info.aliases) := by
  refine ⟨countInfos_allInfos table L n hkeys hregs, rfl, ?_, ?_⟩
  · rcases mem_allInfos table info hinfo with ⟨e, he, hin⟩
    exact (mem_libraryInfos e.1 e.2.commands info hin).2.1
  · rcases mem_allInfos table info hinfo with ⟨e, he, hin⟩
    rcases mem_libraryInfos e.1 e.2.commands info hin with
      ⟨h1, h2, c, h3, h4, h5⟩
    refine ⟨e.2, c, ?_, ?_, h4, h5⟩
    · rw [h1]
      exact alookup_of_mem table e.1 e.2 hkeys (by rw [Prod.mk.eta]; exact he)
    · exact alookup_of_mem e.2.commands info.name c (hregs e he) h3

/-- C9 witness: `greetTable` lists exactly the canonical `greet` entry. -/
theorem get_commands_spec_witness :
    countInfos (get_commands greetTable).1 "greet.so" "greet" =
      (match alookup greetTable "greet.so" with
       | none => 0
       | some reg =>
         match alookup reg.commands "greet" with
         | some c => if c.is_alias then 0 else 1
         | none => 0) ∧
    (get_commands greetTable).2 = Int.ofNat greetTable.length ∧
    ({ name := "greet", aliases := ["hi"], description := DESCRIPTION,
       library := "greet.so" } : CommandInfo).description = DESCRIPTION ∧
    (∃ reg c, alookup greetTable
        ({ name := "greet", aliases := ["hi"],
           description := DESCRIPTION,
           library := "greet.so" } : CommandInfo).library = some reg ∧
      alookup reg.commands
        ({ name := "greet", aliases := ["hi"],
           description := DESCRIPTION,
           library := "greet.so" } : CommandInfo).name = some c ∧
      c.is_alias = false ∧
      c.aliases =
        ({ name := "greet", aliases := ["hi"],
           description := DESCRIPTION,
           library := "greet.so" } : CommandInfo).aliases) :=
  get_commands_spec greetTable "greet.so" "greet"
    { name := "greet", aliases := ["hi"], description := DESCRIPTION,
      library := "greet.so" } (by decide) (by decide) (by decide)

/-- C10: for a well-formed table, `get_command name` succeeds exactly when
some Registry binds `name` to a non-alias entry, while `call`'s lookup
(`findCommand`) succeeds as soon as any binding — alias or canonical —
exists.  In particular a name bound only as an alias is dispatchable via
`call` but `get_command` reports it not-found, because `get_command`
skips every entry whose `is_alias` flag is true. -/
theorem get_command_canonical_only (table : GlobalTable) (name : String)
    (hregs : ∀ e ∈ table, keysNodup e.2.commands) :
    ((get_command table name).isSome = true ↔
      ∃ e ∈ table, ∃ c, alookup e.2.commands name = some c ∧
        c.is_alias = false) ∧
    ((findCommand table name).isSome = true ↔
      ∃ e ∈ table, ∃ c, alookup e.2.commands name = some c) := by
  constructor
  · rw [get_command_isSome_iff]
    constructor
    · rintro ⟨e, he, c, h1, h2⟩
      exact ⟨e, he, c, alookup_of_mem e.2.commands name c (hregs e he) h1,
        h2⟩
    · rintro ⟨e, he, c, h1, h2⟩
      exact ⟨e, he, c, mem_of_alookup e.2.commands name c h1, h2⟩
  · exact findCommand_isSome_iff table name

/-- C10 witness: in `greetTable` the name `hi` is bound only as an alias;
both equivalences hold there (and indeed `get_command` is `none` while
`findCommand` finds the alias proxy). -/
theorem get_command_canonical_only_witness :
    (((get_command greetTable "hi").isSome = true ↔
      ∃ e ∈ greetTable, ∃ c, alookup e.2.commands "hi" = some c ∧
        c.is_alias = false) ∧
    ((findCommand greetTable "hi").isSome = true ↔
      ∃ e ∈ greetTable, ∃ c, alookup e.2.commands "hi" = some c)) ∧
    get_command greetTable "hi" = none ∧
    findCommand greetTable "hi" = some hiProxy :=
  ⟨get_command_canonical_only greetTable "hi" (by decide), rfl, rfl⟩

end CommandService
